import Mathlib

/-!
Verification development for the linear-fit core of FitSNAP3
(fitsnap3/linearfit.py).  Scalars are modelled as rationals; numpy arrays
become nested lists in row-major order; a fallible numpy operation (fancy
indexing that can raise IndexError) becomes an Option; the exception raised
by group_errors becomes an Except.  Division by an exact zero, which numpy
turns into NaN or infinity, is modelled either by the Lean convention
q / 0 = 0 (where no claim depends on it) or by an explicit Option (the rsq
statistic, where a claim does depend on it); each such spot is documented
at its definition.
-/

/-- Sequence a list of optional values: some of the whole list when every
application succeeds, none as soon as one fails.  Models the all-or-nothing
failure of a numpy fancy-indexing expression applied to a whole array. -/
def mapOption (f : α → Option β) : List α → Option (List β)
  | [] => some []
  | x :: xs =>
    match f x, mapOption f xs with
    | some y, some ys => some (y :: ys)
    | _, _ => none

/-- numpy index resolution: a negative index i counts from the end of an
axis of length n, so it denotes position n + i. -/
def npResolve (n : ℕ) (i : ℤ) : ℕ :=
  (if 0 ≤ i then i else (n : ℤ) + i).toNat

/-- numpy indexing on an axis of length n: indices in [-n, n) resolve
(negative ones from the end), anything else raises IndexError (none). -/
def npIndex (n : ℕ) (i : ℤ) : Option ℕ :=
  if -(n : ℤ) ≤ i ∧ i < (n : ℤ) then some (npResolve n i) else none

/-- Row i of np.eye(n): the length-n one-hot row with a 1 in column i. -/
def eyeRowL (n i : ℕ) : List ℚ :=
  (List.range n).map (fun j => if j = i then 1 else 0)

/-- np.stack([np.eye(n_types)[x-1,:].sum(axis=0) for x in AtomTypes]) for a
single configuration: select row x-1 of the identity for every atom type x
(numpy resolves negative indices from the end, raising IndexError outside
[-n_types, n_types)), then sum the one-hot rows, giving per-type counts. -/
def onehot_atoms (n_types : ℕ) (ats : List ℤ) : Option (List ℚ) :=
  (mapOption (fun x => npIndex n_types (x - 1)) ats).map (fun idxs =>
    (List.range n_types).map (fun t =>
      (idxs.map (fun i => (eyeRowL n_types i).getD t 0)).sum))

/-- onehot_atoms / onehot_atoms.sum(axis=1)[:,np.newaxis] for one
configuration: each per-type count divided by the row total. -/
def onehot_fraction (n_types : ℕ) (ats : List ℤ) : Option (List ℚ) :=
  (onehot_atoms n_types ats).map (fun counts => counts.map (fun ct => ct / counts.sum))

/-- energy_type_offset from linearfit.py: n_types is A.shape[1]; the
fractional one-hot of each configuration is prepended to the coefficient
axis (np.concatenate([onehot_fraction[:,:,np.newaxis], A], axis=2)). -/
def energy_type_offset (A : List (List (List ℚ))) (AtomTypes : List (List ℤ)) :
    Option (List (List (List ℚ))) :=
  let n_types := (A.headD []).length
  (mapOption (onehot_fraction n_types) AtomTypes).map (fun fracs =>
    List.zipWith (fun frac Ai => List.zipWith (fun ft row => ft :: row) frac Ai) fracs A)

/-- zero_type_offset from linearfit.py: prepend a zero column to the
coefficient axis of every (row, type) slice. -/
def zero_type_offset (A : List (List (List ℚ))) : List (List (List ℚ)) :=
  A.map (fun Ai => Ai.map (fun row => 0 :: row))

/-- The column-oriented configuration dataset (the configs dict of
linearfit.py).  A field holds one entry per configuration:
NumAtoms count, AtomTypes as integer type ids, per-config descriptor sums
b_sum (n_types ✕ n_coeff), db_atom (atom ✕ 3 ✕ n_types ✕ n_coeff),
vb_sum (6 ✕ n_types ✕ n_coeff), forces as atom ✕ 3, Stress as a 3 ✕ 3
tensor, ref_Stress as a length-6 Voigt vector, and scalar weights. -/
structure Dataset where
  Group : List String
  NumAtoms : List ℕ
  AtomTypes : List (List ℤ)
  Energy : List ℚ
  ref_Energy : List ℚ
  b_sum : List (List (List ℚ))
  db_atom : List (List (List (List (List ℚ))))
  Forces : List (List (List ℚ))
  ref_Forces : List (List (List ℚ))
  vb_sum : List (List (List (List ℚ)))
  Stress : List (List (List ℚ))
  ref_Stress : List (List ℚ)
  Volume : List ℚ
  eweight : List ℚ
  fweight : List ℚ
  vweight : List ℚ
deriving DecidableEq

/-- A linear subsystem (A, b, w): A is a list of rows, each row an
n_types ✕ n_coeff block; b and w are flat target and weight vectors. -/
structure Subsystem where
  A : List (List (List ℚ))
  b : List ℚ
  w : List ℚ
deriving DecidableEq

/-- Elementwise a *= conversion on a design matrix. -/
def scaleA (q : ℚ) (A : List (List (List ℚ))) : List (List (List ℚ)) :=
  A.map (fun Ai => Ai.map (fun row => row.map (fun v => v * q)))

/-- Apply the optional unit-conversion scalar (if conversion is not None:
a *= conversion). -/
def applyConv (conversion : Option ℚ) (A : List (List (List ℚ))) :
    List (List (List ℚ)) :=
  match conversion with
  | none => A
  | some q => scaleA q A

/-- makeAbw_b from linearfit.py: a = b_sum / NumAtoms (broadcast over the
last two axes), b = (Energy - ref_Energy) / NumAtoms, w = eweight (the very
eweight sequence of the dataset, not a copy).  Division by NumAtoms = 0 is
modelled by q / 0 = 0 (numpy would give inf or NaN); no claim depends on
that case.  The result is an Option because the offset branch applies
energy_type_offset, whose fancy indexing can raise. -/
def makeAbw_b (c : Dataset) (offset : Bool) (conversion : Option ℚ) :
    Option Subsystem :=
  let a := List.zipWith (fun bs n => bs.map (fun row => row.map (fun v => v / (n : ℚ))))
    c.b_sum c.NumAtoms
  let a := applyConv conversion a
  let bvec := List.zipWith (fun d n => d / (n : ℚ))
    (List.zipWith (fun e r => e - r) c.Energy c.ref_Energy) c.NumAtoms
  if offset then
    (energy_type_offset a c.AtomTypes).map (fun a2 => { A := a2, b := bvec, w := c.eweight })
  else
    some { A := a, b := bvec, w := c.eweight }

/-- makeAbw_db from linearfit.py: db_atom is concatenated along the config
axis and reshaped so that every atom contributes its 3 component rows;
b is the flattening of concatenate(Forces) - concatenate(ref_Forces);
w broadcasts each fweight scalar over the 3 * NumAtoms force components of
its configuration (np.full_like per config, then flattened; the Python zip
of Forces with fweight truncates to the shorter list, as zipWith does). -/
def makeAbw_db (c : Dataset) (offset : Bool) (conversion : Option ℚ) : Subsystem :=
  let db_atom_flat := c.db_atom.flatten
  let a := db_atom_flat.flatten
  let bvec := (List.zipWith (fun f g => List.zipWith (fun p q => p - q) f g)
    c.Forces.flatten c.ref_Forces.flatten).flatten
  let w := (List.zipWith (fun Fi fwi => (Fi.map (fun row => row.map (fun _ => fwi))).flatten)
    c.Forces c.fweight).flatten
  let a := applyConv conversion a
  let a := if offset then zero_type_offset a else a
  { A := a, b := bvec, w := w }

/-- The fixed pressure-to-energy unit conversion _nktv2p = 1.6021765e6. -/
def nktv2p : ℚ := 3204353 / 2

/-- First advanced-index list of Stress[:,[0,1,2,1,0,0],[0,1,2,2,2,1]]. -/
def voigtRows : List ℕ := [0, 1, 2, 1, 0, 0]

/-- Second advanced-index list of Stress[:,[0,1,2,1,0,0],[0,1,2,2,2,1]]. -/
def voigtCols : List ℕ := [0, 1, 2, 2, 2, 1]

/-- flat_stress = Stress[:,[0,1,2,1,0,0],[0,1,2,2,2,1]]: for every
configuration, read the six tensor entries selected by the paired index
lists.  Out-of-range positions are modelled with getD defaults; every claim
using this supplies a well-shaped 3 ✕ 3 tensor. -/
def flat_stress (Stress : List (List (List ℚ))) : List (List ℚ) :=
  Stress.map (fun S => (voigtRows.zip voigtCols).map (fun rc => (S.getD rc.1 []).getD rc.2 0))

/-- makeAbw_vb from linearfit.py: a = vb_sum reshaped to 6 rows per config,
divided by np.repeat(Volume, 6); b = (flat_stress - ref_Stress) flattened
row-major; w = np.repeat(vweight, 6).  Division by Volume = 0 is modelled
by q / 0 = 0; no claim depends on it. -/
def makeAbw_vb (c : Dataset) (offset : Bool) (conversion : Option ℚ) : Subsystem :=
  let a := List.zipWith (fun row v => row.map (fun tr => tr.map (fun q => q / v)))
    c.vb_sum.flatten ((c.Volume.map (fun v => List.replicate 6 v)).flatten)
  let bvec := (List.zipWith (fun fs rs => List.zipWith (fun p q => p - q) fs rs)
    (flat_stress c.Stress) c.ref_Stress).flatten
  let w := (c.vweight.map (fun v => List.replicate 6 v)).flatten
  let a := applyConv conversion a
  let a := if offset then zero_type_offset a else a
  { A := a, b := bvec, w := w }

/-- Row-wise concatenation of subsystems into the combined (A, b, w). -/
def concatSubsystems (l : List Subsystem) : Subsystem :=
  { A := (l.map Subsystem.A).flatten
    b := (l.map Subsystem.b).flatten
    w := (l.map Subsystem.w).flatten }

/-- make_Abw with return_subsystems=True: apply the selected assemblers in
(energy, force, virial) order with their default conversions (None, None,
_nktv2p); if exactly one is selected return just that subsystem, otherwise
prefix the combined concatenation.  none models the Python errors: a failed
energy_type_offset inside makeAbw_b, or the unpacking error raised when no
subsystem is selected. -/
def make_Abw (c : Dataset) (offset : Bool) (sel : Bool × Bool × Bool) :
    Option (List Subsystem) :=
  let opts : List (Option Subsystem) :=
    (if sel.1 then [makeAbw_b c offset none] else []) ++
    (if sel.2.1 then [some (makeAbw_db c offset none)] else []) ++
    (if sel.2.2 then [some (makeAbw_vb c offset (some nktv2p))] else [])
  match mapOption id opts with
  | none => none
  | some [] => none
  | some [s] => some [s]
  | some subs => some (concatSubsystems subs :: subs)

/-- get_ind from linearfit.py: select the entries of v at the given list of
indices.  The indices produced by get_subgroup are always in range; the
getD default only pads the ill-formed case.  On a numpy array this fancy
indexing returns a fresh copy, never a view: the extracted sub-dataset
shares no storage with the original. -/
def get_ind (ind : List ℕ) (l : List α) (d : α) : List α :=
  ind.map (fun i => l.getD i d)

/-- The indices [i for i, gi in enumerate(configs[\x22Group\x22]) if gi == g]. -/
def group_indices (c : Dataset) (g : String) : List ℕ :=
  (c.Group.enum.filter (fun p => p.2 = g)).map (fun p => p.1)

/-- get_subgroup from linearfit.py: row-select every dataset field at the
indices whose Group label equals g.  Every field is a fresh copy (numpy
fancy indexing / Python list comprehension), so mutating a sub-dataset
array never reaches the original dataset. -/
def get_subgroup (c : Dataset) (g : String) : Dataset :=
  let ind := group_indices c g
  { Group := get_ind ind c.Group ("")
    NumAtoms := get_ind ind c.NumAtoms 0
    AtomTypes := get_ind ind c.AtomTypes []
    Energy := get_ind ind c.Energy 0
    ref_Energy := get_ind ind c.ref_Energy 0
    b_sum := get_ind ind c.b_sum []
    db_atom := get_ind ind c.db_atom []
    Forces := get_ind ind c.Forces []
    ref_Forces := get_ind ind c.ref_Forces []
    vb_sum := get_ind ind c.vb_sum []
    Stress := get_ind ind c.Stress []
    ref_Stress := get_ind ind c.ref_Stress []
    Volume := get_ind ind c.Volume 0
    eweight := get_ind ind c.eweight 0
    fweight := get_ind ind c.fweight 0
    vweight := get_ind ind c.vweight 0 }

/-- Python dict assignment d[k] = v on an association list: replace the
value at an existing key, otherwise append the new binding. -/
def dictInsert (k : String) (v : α) (d : List (String × α)) : List (String × α) :=
  if d.any (fun kv => kv.1 = k) then d.map (fun kv => if kv.1 = k then (k, v) else kv)
  else d ++ [(k, v)]

/-- Lookup in an association list (dict read d[k]). -/
def dictLookup (k : String) (d : List (String × α)) : Option α :=
  (d.find? (fun kv => kv.1 = k)).map (fun kv => kv.2)

/-- The subconfigs dict built at the top of group_errors.  Each entry is
(group name, sub-dataset, aliased?) where the flag records whether the
stored dataset is the caller-supplied configs object itself rather than a
get_subgroup copy: that holds exactly for the synthetic entry
subconfigs[\x22*ALL\x22] = configs.  The group set is modelled as dedup of
the Group column (Python set() iteration order is unspecified anyway; only
membership and cardinality matter to the claims).  With more than one
distinct group the code first tests membership of the literal \x22*All\x22
and raises ValueError on a hit, then assigns the full dataset under the
key \x22*ALL\x22, silently overwriting a real group of that name. -/
def subconfigs_of (c : Dataset) : Except String (List (String × Dataset × Bool)) :=
  let gs := c.Group.dedup
  let sub := gs.map (fun g => (g, get_subgroup c g, false))
  if 1 < gs.length then
    if gs.contains ("*All") then Except.error ("groupname *ALL not allowed.")
    else Except.ok (dictInsert ("*ALL") (c, true) sub)
  else Except.ok sub

/-- The in-place 0/1 masking loop of the compute_testerrs branch:
for i in range(len(w)): w[i] = 1.0 if w[i] > 0.0 else 0.0. -/
def cvMask (w : List ℚ) : List ℚ :=
  w.map (fun q => if 0 < q then 1 else 0)

/-- One pass of the group_errors main loop, tracking only the contents of
the caller-visible eweight array.  For each subconfigs entry the loop calls
make_Abw(cf, offset=True) (an exception there aborts group_errors: error).
Within the entry, the Weighted row of the energy subsystem uses the w
returned by makeAbw_b, which is the eweight array of that entry.2.1 itself;
when compute_testerrs is set, the masking loop then overwrites that array
in place with its 0/1 mask.  For a get_subgroup entry that array is a
fresh copy, so the write is invisible to the caller; for the aliased
synthetic entry (flag true) it is the caller-supplied eweight array, so the
caller observes cvMask applied to it.  The force and virial weight vectors
are always freshly built by np.full_like / np.repeat and the combined w by
np.concatenate, so no other caller array is written through; the later
rebinding w = abs(1 - w) creates a new array and mutates nothing. -/
def group_errors_ewAux (compute_testerrs : Bool) (sel : Bool × Bool × Bool) :
    List (String × Dataset × Bool) → List ℚ → Except String (List ℚ)
  | [], ew => Except.ok ew
  | e :: rest, ew =>
    match make_Abw e.2.1 true sel with
    | none => Except.error ("group assembly failed")
    | some _ =>
      group_errors_ewAux compute_testerrs sel rest
        (if compute_testerrs && e.2.2 && sel.1 then cvMask ew else ew)

/-- The net effect of a group_errors(x, configs, bispec_options, subsystems)
call on the contents of the caller-supplied eweight array: the subconfigs
dict is built (raising on the \x22*All\x22 membership test), then the main
loop runs; the returned list is what configs[\x22eweight\x22] holds after
the call returns. -/
def group_errors_eweight (c : Dataset) (compute_testerrs : Bool)
    (sel : Bool × Bool × Bool) : Except String (List ℚ) :=
  match subconfigs_of c with
  | Except.error e => Except.error e
  | Except.ok subs => group_errors_ewAux compute_testerrs sel subs c.eweight

/-- Dot product of two flat rational vectors. -/
def dotQ (u v : List ℚ) : ℚ :=
  (List.zipWith (fun p q => p * q) u v).sum

/-- pred = A.reshape(A.shape[0], -1) @ x.reshape(-1): row-major flattening
of the typed axes, one dot product per row. -/
def predOf (x : List (List ℚ)) (A : List (List (List ℚ))) : List ℚ :=
  A.map (fun Ai => dotQ Ai.flatten x.flatten)

/-- np.count_nonzero: the number of entries different from zero. -/
def countNonzero (w : List ℚ) : ℕ :=
  (w.filter (fun q => q ≠ 0)).length

/-- The number of strictly positive entries (what the spec says ncount is). -/
def posCount (w : List ℚ) : ℕ :=
  (w.filter (fun q => 0 < q)).length

/-- (true / nconfig).sum(): every entry divided by the count, then summed.
With nconfig = 0 the Lean convention gives 0; in every reachable zero-count
case the summands are themselves 0, where numpy produces the NaNs that the
rsq field models through its None branch. -/
def pseudoMean (v : List ℚ) (n : ℕ) : ℚ :=
  (v.map (fun t => t / (n : ℚ))).sum

/-- np.sum(np.square(true - (true/nconfig).sum())): the total sum of squares
of the (weighted) target about its pseudo-mean. -/
def totalSS (v : List ℚ) (n : ℕ) : ℚ :=
  (v.map (fun t => (t - pseudoMean v n) ^ 2)).sum

/-- The fields of the get_error_metrics record that the claims refer to.
rsq is an Option: none models the non-finite float (NaN or -inf) numpy
produces when the total sum of squares in the denominator is exactly zero.
The rmse, rrmse and rmae statistics involve square roots and a median and
are not representable in exact rational arithmetic; no claim mentions
them. -/
structure ErrMetrics where
  ncount : ℕ
  mae : ℚ
  ssr : ℚ
  mse : ℚ
  rsq : Option ℚ
deriving DecidableEq

/-- get_error_metrics from linearfit.py: flatten x and the typed axes of A,
form pred, weight both sides when w is given, and compute the statistics.
ncount is np.count_nonzero(w) when w is given and len(pred) otherwise;
mae sums abs(res)/ncount; ssr is the sum of squared residuals; mse is
ssr/ncount; rsq = 1 - ssr / totalSS with the zero-denominator case mapped
to none. -/
def get_error_metrics (x : List (List ℚ)) (A : List (List (List ℚ)))
    (b : List ℚ) (w : Option (List ℚ)) : ErrMetrics :=
  let pred := predOf x A
  let tru2 := match w with
    | some wv => List.zipWith (fun p q => p * q) wv b
    | none => b
  let pred2 := match w with
    | some wv => List.zipWith (fun p q => p * q) wv pred
    | none => pred
  let nconfig := match w with
    | some wv => countNonzero wv
    | none => pred.length
  let res := List.zipWith (fun p q => p - q) tru2 pred2
  let ssr := (res.map (fun r => r ^ 2)).sum
  { ncount := nconfig
    mae := (res.map (fun r => |r| / (nconfig : ℚ))).sum
    ssr := ssr
    mse := ssr / (nconfig : ℚ)
    rsq := if totalSS tru2 nconfig = 0 then none
           else some (1 - ssr / totalSS tru2 nconfig) }

/-- The keyword arguments with which sklearn_model_to_fn instantiates a
regression model in get_solver_fn.  An Option field is none when the call
site omits that keyword, so the sklearn default applies; tol = some none
records an explicit tol=None.  l1r stands for the L1-L2 mixing keyword of
ElasticNet. -/
structure SkModel where
  cls : String
  fit_intercept : Option Bool
  alpha : Option ℚ
  l1r : Option ℚ
  max_iter : Option ℚ
  penalty : Option String
  shuffle : Option Bool
  learning_rate : Option String
  eta0 : Option ℚ
  early_stopping : Option Bool
  warm_start : Option Bool
  verbose : Option ℕ
  tol : Option (Option ℚ)
deriving DecidableEq

/-- A model record with every keyword omitted. -/
def skDefault (c : String) : SkModel :=
  { cls := c, fit_intercept := none, alpha := none, l1r := none, max_iter := none
    penalty := none, shuffle := none, learning_rate := none, eta0 := none
    early_stopping := none, warm_start := none, verbose := none, tol := none }

/-- get_solver_fn from linearfit.py, reduced to the model class and keyword
arguments each selector configures (normweight and normr are the
bispec_options entries normweight and normratio).  SVD builds
LinearRegression with no keyword arguments at all; LASSO, RIDGE and
ELASTIC pass alpha, max_iter=1E6 and fit_intercept=False (plus the mixing
keyword for ELASTIC); SGD passes the full explicit SGDRegressor
configuration.  An unsupported selector raises KeyError: none. -/
def get_solver_fn_model (normweight normr : ℚ) (solver : String) : Option SkModel :=
  if solver = "SVD" then some (skDefault ("LinearRegression"))
  else if solver = "LASSO" then
    some { skDefault ("Lasso") with
      alpha := some normweight, max_iter := some 1000000, fit_intercept := some false }
  else if solver = "RIDGE" then
    some { skDefault ("Ridge") with
      alpha := some normweight, max_iter := some 1000000, fit_intercept := some false }
  else if solver = "ELASTIC" then
    some { skDefault ("ElasticNet") with
      alpha := some normweight, l1r := some normr, max_iter := some 1000000,
      fit_intercept := some false }
  else if solver = "SGD" then
    some { skDefault ("SGDRegressor") with
      penalty := some ("none"), alpha := some 0, shuffle := some true,
      max_iter := some 10000, fit_intercept := some false,
      learning_rate := some ("adaptive"), eta0 := some (1 / 10 ^ 20),
      early_stopping := some true, warm_start := some true, verbose := some 1,
      tol := some none }
  else none

/-- The spec description of the virial target entry k of one configuration:
the Voigt components (xx, yy, zz, yz, xz, xy) of the Stress tensor, that is
tensor positions (0,0), (1,1), (2,2), (1,2), (0,2), (0,1), minus the
corresponding ref_Stress entries.  Written from the spec words, to be
compared with the flat_stress/reshape pipeline of makeAbw_vb. -/
def voigtSpec (S : List (List ℚ)) (r : List ℚ) (k : ℕ) : ℚ :=
  [(S.getD 0 []).getD 0 0 - r.getD 0 0,
   (S.getD 1 []).getD 1 0 - r.getD 1 0,
   (S.getD 2 []).getD 2 0 - r.getD 2 0,
   (S.getD 1 []).getD 2 0 - r.getD 3 0,
   (S.getD 0 []).getD 2 0 - r.getD 4 0,
   (S.getD 0 []).getD 1 0 - r.getD 5 0].getD k 0

/-- A concrete two-configuration dataset (one atom of type 1 each,
n_types = 1, n_coeff = 1) used to evaluate the theorems on closed inputs:
only the group labels and energy weights vary between uses. -/
def mk2 (g0 g1 : String) (ew0 ew1 : ℚ) : Dataset :=
  { Group := [g0, g1]
    NumAtoms := [1, 1]
    AtomTypes := [[1], [1]]
    Energy := [1, 2]
    ref_Energy := [0, 0]
    b_sum := [[[1]], [[2]]]
    db_atom := [[[[[1]], [[2]], [[3]]]], [[[[1]], [[2]], [[3]]]]]
    Forces := [[[1, 2, 3]], [[4, 5, 6]]]
    ref_Forces := [[[0, 0, 0]], [[0, 0, 0]]]
    vb_sum := [List.replicate 6 [[1]], List.replicate 6 [[1]]]
    Stress := [[[1, 2, 3], [4, 5, 6], [7, 8, 9]], [[1, 0, 0], [0, 1, 0], [0, 0, 1]]]
    ref_Stress := [[0, 0, 0, 0, 0, 0], [1, 1, 1, 0, 0, 0]]
    Volume := [1, 1]
    eweight := [ew0, ew1]
    fweight := [1, 1]
    vweight := [1, 1] }

/-- Two groups with weights that are not already a 0/1 mask. -/
def dC1 : Dataset := mk2 ("a") ("b") 2 (1 / 2)

/-- A real group named exactly like the synthetic all-groups label. -/
def dC2a : Dataset := mk2 ("*ALL") ("g") 1 1

/-- A real group named like the string the code actually tests for. -/
def dC2b : Dataset := mk2 ("*All") ("g") 1 1

/-! ### Helper lemmas on lists -/

/-- A successful mapOption preserves the length. -/
theorem mapOption_length {f : α → Option β} :
    ∀ {l : List α} {l2 : List β}, mapOption f l = some l2 → l2.length = l.length := by
  intro l
  induction l with
  | nil => intro l2 h; simp [mapOption] at h; simp [h.symm]
  | cons x xs ih =>
    intro l2 h
    simp only [mapOption] at h
    cases hx : f x with
    | none => rw [hx] at h; simp at h
    | some y =>
      rw [hx] at h
      cases hxs : mapOption f xs with
      | none => rw [hxs] at h; simp at h
      | some ys =>
        rw [hxs] at h
        simp at h
        rw [h.symm]
        simp [ih hxs]

/-- mapOption succeeds pointwise when every application succeeds with a
known value. -/
theorem mapOption_eq_some {f : α → Option β} (g : α → β) :
    ∀ (l : List α), (∀ x ∈ l, f x = some (g x)) → mapOption f l = some (l.map g) := by
  intro l
  induction l with
  | nil => intro _; simp [mapOption]
  | cons x xs ih =>
    intro h
    have hx := h x (by simp)
    have hxs := ih (fun y hy => h y (by simp [hy]))
    simp [mapOption, hx, hxs]

/-- getD through a map, for an in-range index; the default on the mapped
side is irrelevant. -/
theorem map_getD (f : α → β) (l : List α) (i : ℕ) (d : α) (d2 : β)
    (h : i < l.length) : (l.map f).getD i d2 = f (l.getD i d) := by
  rw [List.getD_eq_getElem?_getD, List.getD_eq_getElem?_getD, List.getElem?_map,
    List.getElem?_eq_getElem h]
  rfl

/-- getD of zipWith, for an index in range of both lists; defaults on the
argument sides are irrelevant. -/
theorem zipWith_getD (f : α → β → γ) (da : α) (db : β) (dc : γ) :
    ∀ (l1 : List α) (l2 : List β) (i : ℕ), i < l1.length → i < l2.length →
      (List.zipWith f l1 l2).getD i dc = f (l1.getD i da) (l2.getD i db) := by
  intro l1
  induction l1 with
  | nil => intro l2 i h1 _; simp at h1
  | cons x xs ih =>
    intro l2 i h1 h2
    cases l2 with
    | nil => simp at h2
    | cons y ys =>
      cases i with
      | zero => rfl
      | succ j =>
        simp only [List.zipWith_cons_cons, List.getD_cons_succ]
        exact ih ys j (by simpa using h1) (by simpa using h2)

/-- An in-range getD is a member. -/
theorem getD_mem_of_lt (l : List α) (i : ℕ) (d : α) (h : i < l.length) :
    l.getD i d ∈ l := by
  rw [List.getD_eq_getElem?_getD, List.getElem?_eq_getElem h]
  exact List.getElem_mem h

/-- Reading flattened position n * i + k of a list of uniform length-n
blocks reads entry k of block i. -/
theorem getD_flatten_uniform (n : ℕ) (d : α) :
    ∀ (L : List (List α)) (i k : ℕ), (∀ x ∈ L, x.length = n) → k < n → i < L.length →
      L.flatten.getD (n * i + k) d = (L.getD i []).getD k d := by
  intro L
  induction L with
  | nil => intro i k _ _ hi; simp at hi
  | cons x xs ih =>
    intro i k hlen hk hi
    have hx : x.length = n := hlen x (by simp)
    cases i with
    | zero =>
      simp only [Nat.mul_zero, Nat.zero_add, List.flatten_cons, List.getD_cons_zero]
      rw [List.getD_eq_getElem?_getD, List.getElem?_append_left (by omega),
        ← List.getD_eq_getElem?_getD]
    | succ j =>
      have harith : n * (j + 1) + k = x.length + (n * j + k) := by rw [hx]; ring
      simp only [List.flatten_cons, List.getD_cons_succ, harith]
      rw [List.getD_eq_getElem?_getD, List.getElem?_append_right (by omega)]
      have : x.length + (n * j + k) - x.length = n * j + k := by omega
      rw [this, ← List.getD_eq_getElem?_getD]
      exact ih j k (fun y hy => hlen y (by simp [hy])) hk (by simpa using hi)

/-- A membership fact transported through zipWith. -/
theorem forall_mem_zipWith {f : α → β → γ} (p : γ → Prop)
    (h : ∀ a b, p (f a b)) :
    ∀ (l1 : List α) (l2 : List β), ∀ x ∈ List.zipWith f l1 l2, p x := by
  intro l1
  induction l1 with
  | nil => intro l2 x hx; simp at hx
  | cons a as ih =>
    intro l2 x hx
    cases l2 with
    | nil => simp at hx
    | cons b bs =>
      simp only [List.zipWith_cons_cons, List.mem_cons] at hx
      rcases hx with hx | hx
      · rw [hx]; exact h a b
      · exact ih bs x hx

/-- A list of length six is six explicit entries. -/
theorem length_six_destruct (l : List α) (h : l.length = 6) :
    ∃ a b c d e f, l = [a, b, c, d, e, f] := by
  match l, h with
  | [a, b, c, d, e, f], _ => exact ⟨a, b, c, d, e, f, rfl⟩

/-- Summing a function mapped over List.range is the Finset.range sum. -/
theorem sum_map_range (f : ℕ → ℚ) : ∀ (n : ℕ),
    ((List.range n).map f).sum = ∑ t ∈ Finset.range n, f t := by
  intro n
  induction n with
  | zero => simp
  | succ m ih => rw [List.range_succ, Finset.sum_range_succ, ← ih]; simp

/-- Subtracting a list from itself elementwise gives zeros. -/
theorem zipWith_sub_self (l : List ℚ) :
    List.zipWith (fun p q => p - q) l l = List.replicate l.length 0 := by
  induction l with
  | nil => rfl
  | cons x xs ih => simp [List.replicate_succ, ih]

/-- The sum of squares of a zero list vanishes. -/
theorem sum_sq_replicate_zero (n : ℕ) :
    ((List.replicate n (0 : ℚ)).map (fun r => r ^ 2)).sum = 0 := by
  induction n with
  | zero => rfl
  | succ m ih => simp [List.replicate_succ, ih]

/-- Sum of lengths of uniformly sized blocks. -/
theorem sum_map_length_const (n : ℕ) :
    ∀ (L : List (List α)), (∀ x ∈ L, x.length = n) → (L.map List.length).sum = n * L.length := by
  intro L
  induction L with
  | nil => simp
  | cons x xs ih =>
    intro h
    have hx : x.length = n := h x (by simp)
    simp only [List.map_cons, List.sum_cons, List.length_cons]
    rw [hx, ih (fun y hy => h y (by simp [hy]))]
    ring

/-- Factoring the constant 3 out of a mapped sum of naturals. -/
theorem sum_map_three (l : List ℕ) : (l.map (fun n => 3 * n)).sum = 3 * l.sum := by
  induction l with
  | nil => rfl
  | cons x xs ih => simp [ih]; ring

/-! ### Lemmas about the one-hot type counting -/

/-- A valid 1-indexed type id resolves to the 0-indexed row x - 1. -/
theorem npIndex_of_valid (T : ℕ) (x : ℤ) (h1 : 1 ≤ x) (h2 : x ≤ (T : ℤ)) :
    npIndex T (x - 1) = some (npResolve T (x - 1)) := by
  unfold npIndex
  rw [if_pos]
  constructor <;> omega

/-- For a valid id the resolved row is the natural number x - 1. -/
theorem npResolve_of_valid (T : ℕ) (x : ℤ) (h1 : 1 ≤ x) :
    npResolve T (x - 1) = (x - 1).toNat := by
  unfold npResolve
  rw [if_pos (by omega)]

/-- Type id 0 maps to raw index -1, which numpy resolves to the last row. -/
theorem npIndex_zero (T : ℕ) (hT : 0 < T) : npIndex T (0 - 1) = some (T - 1) := by
  unfold npIndex npResolve
  rw [if_pos (by constructor <;> omega), if_neg (by omega)]
  congr 1
  omega

/-- Every id that is 0 or a valid 1-indexed type resolves without error. -/
theorem npIndex_zero_or_valid (T : ℕ) (x : ℤ) (hT : 0 < T)
    (h : x = 0 ∨ (1 ≤ x ∧ x ≤ (T : ℤ))) :
    npIndex T (x - 1) = some (npResolve T (x - 1)) := by
  unfold npIndex
  rw [if_pos]
  rcases h with h | h <;> constructor <;> omega

/-- getD into List.range, in range. -/
theorem range_getD (n t : ℕ) (h : t < n) : (List.range n).getD t 0 = t := by
  rw [List.getD_eq_getElem?_getD, List.getElem?_range h]
  rfl

/-- Entry t of the one-hot row i of the identity. -/
theorem eyeRowL_getD (n i t : ℕ) (ht : t < n) :
    (eyeRowL n i).getD t 0 = if t = i then 1 else 0 := by
  unfold eyeRowL
  rw [map_getD (fun j => if j = i then (1 : ℚ) else 0) (List.range n) t 0 0
    (by simpa using ht), range_getD n t ht]

/-- Summing the t entries of one-hot rows counts the indices equal to t. -/
theorem eyeSum (T t : ℕ) (ht : t < T) : ∀ (idxs : List ℕ),
    (idxs.map (fun i => (eyeRowL T i).getD t 0)).sum
      = ((idxs.filter (fun i => i = t)).length : ℚ) := by
  intro idxs
  induction idxs with
  | nil => simp
  | cons i rest ih =>
    rw [List.map_cons, List.sum_cons, eyeRowL_getD T i t ht, ih, List.filter_cons]
    by_cases hit : i = t
    · rw [if_pos hit.symm, if_pos (by simp [hit]), List.length_cons]
      push_cast
      ring
    · rw [if_neg (fun hc => hit hc.symm), if_neg (by simp [hit])]
      ring

/-- When every atom id resolves, onehot_atoms returns per-type counts of
the resolved row indices. -/
theorem onehot_atoms_counts (T : ℕ) (ats : List ℤ)
    (h : ∀ x ∈ ats, npIndex T (x - 1) = some (npResolve T (x - 1))) :
    onehot_atoms T ats = some ((List.range T).map (fun (t : ℕ) =>
      (((ats.map (fun x => npResolve T (x - 1))).filter (fun i => i = t)).length : ℚ))) := by
  unfold onehot_atoms
  rw [mapOption_eq_some (fun x => npResolve T (x - 1)) ats h]
  simp only [Option.map_some']
  congr 1
  apply List.map_congr_left
  intro t htmem
  exact eyeSum T t (List.mem_range.mp htmem) (ats.map (fun x => npResolve T (x - 1)))

/-- Summing the per-row-index counts over all rows counts every index. -/
theorem counts_total (T : ℕ) : ∀ (idxs : List ℕ), (∀ i ∈ idxs, i < T) →
    ((List.range T).map (fun (t : ℕ) => ((idxs.filter (fun i => i = t)).length : ℚ))).sum
      = (idxs.length : ℚ) := by
  intro idxs
  induction idxs with
  | nil => intro _; rw [sum_map_range]; simp
  | cons i rest ih =>
    intro h
    have hi : i < T := h i (by simp)
    have hrest : ∀ j ∈ rest, j < T := fun j hj => h j (List.mem_cons_of_mem i hj)
    rw [sum_map_range]
    have hsplit : ∀ t ∈ Finset.range T,
        (((i :: rest).filter (fun j => j = t)).length : ℚ)
          = (if i = t then (1 : ℚ) else 0) + ((rest.filter (fun j => j = t)).length : ℚ) := by
      intro t _
      by_cases hit : i = t
      · rw [List.filter_cons, if_pos (by simp [hit]), if_pos hit, List.length_cons]
        push_cast
        ring
      · rw [List.filter_cons, if_neg (by simp [hit]), if_neg hit]
        ring
    rw [Finset.sum_congr rfl hsplit, Finset.sum_add_distrib, Finset.sum_ite_eq]
    rw [if_pos (Finset.mem_range.mpr hi), ← sum_map_range, ih hrest, List.length_cons]
    push_cast
    ring

/-- For valid ids, counting resolved rows equal to t counts ids equal to
t + 1. -/
theorem filter_count_valid (T t : ℕ) (ht : t < T) : ∀ (ats : List ℤ),
    (∀ x ∈ ats, 1 ≤ x ∧ x ≤ (T : ℤ)) →
    ((ats.map (fun x => npResolve T (x - 1))).filter (fun i => i = t)).length
      = (ats.filter (fun x => x = (t : ℤ) + 1)).length := by
  intro ats
  induction ats with
  | nil => intro _; rfl
  | cons x rest ih =>
    intro h
    have hx : 1 ≤ x ∧ x ≤ (T : ℤ) := h x (by simp)
    have hrest : ∀ y ∈ rest, 1 ≤ y ∧ y ≤ (T : ℤ) :=
      fun y hy => h y (List.mem_cons_of_mem x hy)
    have key : (npResolve T (x - 1) = t) ↔ (x = (t : ℤ) + 1) := by
      rw [npResolve_of_valid T x hx.1]
      omega
    rw [List.map_cons, List.filter_cons, List.filter_cons]
    by_cases hxe : x = (t : ℤ) + 1
    · rw [if_pos (by simp [key.mpr hxe]), if_pos (by simp [hxe]),
        List.length_cons, List.length_cons, ih hrest]
    · rw [if_neg (by simp; exact fun hc => hxe (key.mp hc)),
        if_neg (by simp [hxe]), ih hrest]

/-- With 0-or-valid ids, the count of resolved rows equal to the last row
T - 1 counts the ids equal to T together with the ids equal to 0. -/
theorem filter_count_last (T : ℕ) (hT : 0 < T) : ∀ (ats : List ℤ),
    (∀ x ∈ ats, x = 0 ∨ (1 ≤ x ∧ x ≤ (T : ℤ))) →
    ((ats.map (fun x => npResolve T (x - 1))).filter (fun i => i = T - 1)).length
      = (ats.filter (fun x => x = (T : ℤ) ∨ x = 0)).length := by
  intro ats
  induction ats with
  | nil => intro _; rfl
  | cons x rest ih =>
    intro h
    have hx : x = 0 ∨ (1 ≤ x ∧ x ≤ (T : ℤ)) := h x (by simp)
    have hrest : ∀ y ∈ rest, y = 0 ∨ (1 ≤ y ∧ y ≤ (T : ℤ)) :=
      fun y hy => h y (List.mem_cons_of_mem x hy)
    have key : (npResolve T (x - 1) = T - 1) ↔ (x = (T : ℤ) ∨ x = 0) := by
      unfold npResolve
      rcases hx with hx | hx
      · rw [if_neg (by omega)]
        omega
      · rw [if_pos (by omega)]
        omega
    rw [List.map_cons, List.filter_cons, List.filter_cons]
    by_cases hxe : x = (T : ℤ) ∨ x = 0
    · rw [if_pos (by simp only [decide_eq_true_eq]; exact key.mpr hxe),
        if_pos (by simp only [decide_eq_true_eq]; exact hxe),
        List.length_cons, List.length_cons, ih hrest]
    · rw [if_neg (by simp only [decide_eq_true_eq]; exact fun hc => hxe (key.mp hc)),
        if_neg (by simp only [decide_eq_true_eq]; exact hxe), ih hrest]

/-- For a dataset of valid 1-indexed type ids, onehot_fraction returns, for
each type t, the count of atoms of type t + 1 divided by the number of
atoms. -/
theorem onehot_fraction_valid (T : ℕ) (ats : List ℤ)
    (hval : ∀ x ∈ ats, 1 ≤ x ∧ x ≤ (T : ℤ)) :
    onehot_fraction T ats = some ((List.range T).map (fun (t : ℕ) =>
      ((ats.filter (fun x => x = (t : ℤ) + 1)).length : ℚ) / (ats.length : ℚ))) := by
  have hidx : ∀ x ∈ ats, npIndex T (x - 1) = some (npResolve T (x - 1)) :=
    fun x hx => npIndex_of_valid T x (hval x hx).1 (hval x hx).2
  have hcounts := onehot_atoms_counts T ats hidx
  have hconv : ((List.range T).map (fun (t : ℕ) =>
      (((ats.map (fun x => npResolve T (x - 1))).filter (fun i => i = t)).length : ℚ)))
      = ((List.range T).map (fun (t : ℕ) =>
      ((ats.filter (fun x => x = (t : ℤ) + 1)).length : ℚ))) := by
    apply List.map_congr_left
    intro t htmem
    rw [filter_count_valid T t (List.mem_range.mp htmem) ats hval]
  have hlt : ∀ i ∈ ats.map (fun x => npResolve T (x - 1)), i < T := by
    intro i hi
    rcases List.mem_map.mp hi with ⟨x, hx, hrx⟩
    have h1 := (hval x hx).1
    have h2 := (hval x hx).2
    rw [← hrx, npResolve_of_valid T x h1]
    omega
  have htotal : ((List.range T).map (fun (t : ℕ) =>
      ((ats.filter (fun x => x = (t : ℤ) + 1)).length : ℚ))).sum = (ats.length : ℚ) := by
    rw [← hconv, counts_total T _ hlt, List.length_map]
  unfold onehot_fraction
  rw [hcounts]
  simp only [Option.map_some']
  rw [hconv, htotal, List.map_map]
  rfl

/-! ### Supporting lemmas for the claims -/

/-- Every entry of a dict after d[k] = v that carries key k holds value v. -/
theorem dictInsert_key_val {α : Type} (k : String) (v : α) :
    ∀ (d : List (String × α)) (p : String × α), p ∈ dictInsert k v d → p.1 = k → p.2 = v := by
  intro d p hp hk
  unfold dictInsert at hp
  by_cases hany : d.any (fun kv => kv.1 = k) = true
  · rw [if_pos hany] at hp
    rcases List.mem_map.mp hp with ⟨q, hq, heq⟩
    by_cases hqk : q.1 = k
    · rw [if_pos hqk] at heq
      rw [← heq]
    · rw [if_neg hqk] at heq
      exact absurd (heq ▸ hk) hqk
  · rw [if_neg hany] at hp
    rcases List.mem_append.mp hp with hp | hp
    · exact absurd (List.any_eq_true.mpr ⟨p, hp, by simp [hk]⟩) hany
    · simp at hp
      rw [hp]

/-- Nonzero counting agrees with positive counting on nonnegative vectors. -/
theorem countNonzero_eq_posCount :
    ∀ (wv : List ℚ), (∀ q ∈ wv, 0 ≤ q) → countNonzero wv = posCount wv := by
  intro wv
  induction wv with
  | nil => intro _; rfl
  | cons q rest ih =>
    intro h
    have hq : 0 ≤ q := h q (by simp)
    have hrest : ∀ y ∈ rest, 0 ≤ y := fun y hy => h y (List.mem_cons_of_mem q hy)
    unfold countNonzero posCount
    rw [List.filter_cons, List.filter_cons]
    by_cases h0 : q = 0
    · rw [if_neg (by simp [h0]), if_neg (by simp [h0])]
      exact ih hrest
    · have hpos : 0 < q := lt_of_le_of_ne hq (Ne.symm h0)
      rw [if_pos (by simp [h0]), if_pos (by simp [hpos]), List.length_cons,
        List.length_cons]
      exact congrArg Nat.succ (ih hrest)

/-! ### The claims -/

/-- C1: the claim says group_errors leaves every caller-supplied dataset
array unchanged.  The code does not: with more than one distinct group and
compute_testerrs set, the energy weight vector of the synthetic all-groups
entry is the dataset eweight array itself, and the cross-validation
masking loop overwrites it in place with its 0/1 mask.  On the concrete
dataset dC1 (eweight [2, 1/2]) the call returns with eweight rewritten to
[1, 1]. -/
theorem claim_C1 :
    group_errors_eweight dC1 true (true, true, true) = Except.ok (cvMask dC1.eweight)
    ∧ cvMask dC1.eweight ≠ dC1.eweight :=
  ⟨rfl, by decide⟩

/-- C2: the claim says group_errors fails with a naming-conflict error
whenever a real group carries the synthetic all-groups label.  The code
tests the literal *All although it inserts the label *ALL: on dC2a, whose
real groups are *ALL and g, no error is raised and the entry stored under
*ALL is silently replaced by the aliased full dataset; on dC2b, whose
harmless real groups are *All and g, the ValueError is raised instead. -/
theorem claim_C2 :
    (subconfigs_of dC2a).toOption.bind (fun l => dictLookup ("*ALL") l) = some (dC2a, true)
    ∧ subconfigs_of dC2b = Except.error ("groupname *ALL not allowed.") :=
  ⟨rfl, rfl⟩

/-- C3 (counterexample): a one-row system with zero residual and a nonzero
weight vector: pred equals b exactly and every weight is nonzero, yet rsq
is not 1.0 because the total sum of squares about the pseudo-mean vanishes
and numpy returns NaN (modelled none). -/
theorem claim_C3_counterexample :
    predOf [[2]] [[[1]]] = [2] ∧ (∀ q ∈ ([1] : List ℚ), q ≠ 0)
    ∧ (get_error_metrics [[2]] [[[1]]] [2] (some [1])).rsq = none
    ∧ (none : Option ℚ) ≠ some 1 := by
  refine ⟨by norm_num [predOf, dotQ], by norm_num, ?_, by simp⟩
  unfold get_error_metrics
  norm_num [predOf, dotQ, totalSS, pseudoMean, countNonzero]

/-- C3 (amended): with zero residual and nonzero weights, rsq equals 1.0
provided additionally the total sum of squares of the weighted target
about its pseudo-mean is nonzero. -/
theorem claim_C3 (x : List (List ℚ)) (A : List (List (List ℚ))) (b wv : List ℚ)
    (hpred : predOf x A = b) (hw : ∀ q ∈ wv, q ≠ 0)
    (htss : totalSS (List.zipWith (fun p q => p * q) wv b) (countNonzero wv) ≠ 0) :
    (get_error_metrics x A b (some wv)).rsq = some 1 := by
  unfold get_error_metrics
  rw [hpred]
  simp only [zipWith_sub_self, sum_sq_replicate_zero]
  rw [if_neg htss]
  norm_num

/-- C3 (witness): a two-row exact fit with unit weights, where the total
sum of squares is 1/2, so the amended theorem applies and rsq is 1. -/
theorem claim_C3_witness :
    (get_error_metrics [[1]] [[[1]], [[2]]] [1, 2] (some [1, 1])).rsq = some 1 :=
  claim_C3 [[1]] [[[1]], [[2]]] [1, 2] [1, 1] (by norm_num [predOf, dotQ])
    (by norm_num) (by norm_num [totalSS, pseudoMean, countNonzero])

/-- C4 (counterexample): the SVD selector is supported, yet the model it
configures is not constructed with fit_intercept=False: the call site
passes no fit_intercept keyword at all (the sklearn LinearRegression
default, fit_intercept=True, therefore applies). -/
theorem claim_C4_counterexample :
    (get_solver_fn_model 1 1 ("SVD")).isSome = true
    ∧ (get_solver_fn_model 1 1 ("SVD")).map SkModel.fit_intercept ≠ some (some false) := by
  refine ⟨rfl, by decide⟩

/-- C4 (amended): LASSO, RIDGE, ELASTIC and SGD are constructed with
fit_intercept=False; SVD constructs LinearRegression without a
fit_intercept keyword. -/
theorem claim_C4 (normweight normr : ℚ) :
    (get_solver_fn_model normweight normr ("SVD")).map SkModel.fit_intercept = some none
    ∧ (get_solver_fn_model normweight normr ("LASSO")).map SkModel.fit_intercept
        = some (some false)
    ∧ (get_solver_fn_model normweight normr ("RIDGE")).map SkModel.fit_intercept
        = some (some false)
    ∧ (get_solver_fn_model normweight normr ("ELASTIC")).map SkModel.fit_intercept
        = some (some false)
    ∧ (get_solver_fn_model normweight normr ("SGD")).map SkModel.fit_intercept
        = some (some false) :=
  ⟨rfl, rfl, rfl, rfl, rfl⟩

/-- C5: with more than one distinct group and no group named like the
tested literal, subconfigs holds the caller-supplied dataset itself under
the synthetic all-groups key, so every subsystem selector assembles the
identical combined system from the synthetic partition and from the full
dataset. -/
theorem claim_C5 (c : Dataset) (h1 : 1 < c.Group.dedup.length)
    (h2 : c.Group.dedup.contains ("*All") = false) (offset : Bool)
    (sel : Bool × Bool × Bool) :
    ∃ l, subconfigs_of c = Except.ok l ∧
      ∀ d al, (("*ALL"), d, al) ∈ l → make_Abw d offset sel = make_Abw c offset sel := by
  refine ⟨dictInsert ("*ALL") (c, true)
    ((c.Group.dedup).map (fun g => (g, get_subgroup c g, false))), ?_, ?_⟩
  · unfold subconfigs_of
    rw [if_pos h1, if_neg (by rw [h2]; simp)]
  · intro d al hmem
    have hval := dictInsert_key_val ("*ALL") ((c, true) : Dataset × Bool) _
      ((("*ALL"), d, al) : String × Dataset × Bool) hmem rfl
    have hd : d = c := congrArg Prod.fst hval
    rw [hd]

/-- C5 (witness): instantiated on the two-group dataset dC1 with all three
subsystems selected and offset columns on. -/
theorem claim_C5_witness :
    ∃ l, subconfigs_of dC1 = Except.ok l ∧
      ∀ d al, (("*ALL"), d, al) ∈ l →
        make_Abw d true (true, true, true) = make_Abw dC1 true (true, true, true) :=
  claim_C5 dC1 (by decide) (by decide) true (true, true, true)

/-- C6 (counterexample): ncount is np.count_nonzero of w, not the number of
strictly positive entries: a negative weight is counted. -/
theorem claim_C6_counterexample :
    (get_error_metrics [[1]] [[[1]]] [0] (some [-1])).ncount = 1 ∧ posCount [-1] = 0 := by
  refine ⟨rfl, by decide⟩

/-- C6 (amended): with w supplied, ncount is the number of nonzero entries
of w, which coincides with the number of strictly positive entries when
every entry is nonnegative (as dataset weights are); with w omitted,
ncount is the full row count. -/
theorem claim_C6 (x : List (List ℚ)) (A : List (List (List ℚ))) (b wv : List ℚ)
    (hb : b.length = A.length) :
    (get_error_metrics x A b (some wv)).ncount = countNonzero wv
    ∧ ((∀ q ∈ wv, 0 ≤ q) → countNonzero wv = posCount wv)
    ∧ (get_error_metrics x A b none).ncount = b.length := by
  refine ⟨rfl, countNonzero_eq_posCount wv, ?_⟩
  show (predOf x A).length = b.length
  rw [predOf, List.length_map, hb]

/-- C6 (witness): instantiated on a one-row system. -/
theorem claim_C6_witness :
    (get_error_metrics [[1]] [[[1]]] [5] (some [3])).ncount = countNonzero [3]
    ∧ ((∀ q ∈ ([3] : List ℚ), 0 ≤ q) → countNonzero [3] = posCount [3])
    ∧ (get_error_metrics [[1]] [[[1]]] [5] none).ncount = ([5] : List ℚ).length :=
  claim_C6 [[1]] [[[1]]] [5] [3] rfl

/-- Every element of a zipWith comes from a pair of members. -/
theorem mem_zipWith_exists {f : α → β → γ} :
    ∀ (l1 : List α) (l2 : List β), ∀ x ∈ List.zipWith f l1 l2,
      ∃ a ∈ l1, ∃ b ∈ l2, x = f a b := by
  intro l1
  induction l1 with
  | nil => intro l2 x hx; simp at hx
  | cons a as ih =>
    intro l2 x hx
    cases l2 with
    | nil => simp at hx
    | cons b bs =>
      simp only [List.zipWith_cons_cons, List.mem_cons] at hx
      rcases hx with hx | hx
      · exact ⟨a, by simp, b, by simp, hx⟩
      · rcases ih bs x hx with ⟨a2, ha2, b2, hb2, hx2⟩
        exact ⟨a2, by simp [ha2], b2, by simp [hb2], hx2⟩

/-- C7: the virial target vector of makeAbw_vb consists, configuration by
configuration, of the six Stress entries taken at tensor positions (0,0),
(1,1), (2,2), (1,2), (0,2), (0,1) — the Voigt order xx, yy, zz, yz, xz,
xy — minus the corresponding ref_Stress entries, flattened six rows per
configuration: entry 6 i + k of b is the voigtSpec value of configuration
i at component k. -/
theorem claim_C7 (c : Dataset) (hlen : c.ref_Stress.length = c.Stress.length)
    (hrs : ∀ r ∈ c.ref_Stress, r.length = 6) (i k : ℕ)
    (hi : i < c.Stress.length) (hk : k < 6) (offset : Bool) (conversion : Option ℚ) :
    (makeAbw_vb c offset conversion).b.getD (6 * i + k) 0
      = voigtSpec (c.Stress.getD i []) (c.ref_Stress.getD i []) k := by
  have hb : (makeAbw_vb c offset conversion).b
      = (List.zipWith (fun fs rs => List.zipWith (fun p q => p - q) fs rs)
        (flat_stress c.Stress) c.ref_Stress).flatten := rfl
  rw [hb]
  have hflen : (flat_stress c.Stress).length = c.Stress.length := by
    unfold flat_stress
    exact List.length_map c.Stress _
  have hLlen : (List.zipWith (fun fs rs => List.zipWith (fun p q => p - q) fs rs)
      (flat_stress c.Stress) c.ref_Stress).length = c.Stress.length := by
    rw [List.length_zipWith, hflen, hlen, min_self]
  have hblocks : ∀ x ∈ List.zipWith (fun fs rs => List.zipWith (fun p q => p - q) fs rs)
      (flat_stress c.Stress) c.ref_Stress, x.length = 6 := by
    intro x hx
    rcases mem_zipWith_exists _ _ x hx with ⟨fs, hfs, rs, hrsm, hxval⟩
    rcases List.mem_map.mp hfs with ⟨S0, _, hS0⟩
    rw [hxval, List.length_zipWith, hrs rs hrsm, ← hS0]
    simp [voigtRows, voigtCols]
  rw [getD_flatten_uniform 6 0 _ i k hblocks hk (by rw [hLlen]; exact hi)]
  have hLi : (List.zipWith (fun fs rs => List.zipWith (fun p q => p - q) fs rs)
      (flat_stress c.Stress) c.ref_Stress).getD i []
      = List.zipWith (fun p q => p - q) ((flat_stress c.Stress).getD i [])
        (c.ref_Stress.getD i []) :=
    zipWith_getD _ [] [] [] _ _ i (by rw [hflen]; exact hi) (by rw [hlen]; exact hi)
  have hfs_i : (flat_stress c.Stress).getD i []
      = (voigtRows.zip voigtCols).map
        (fun rc => ((c.Stress.getD i []).getD rc.1 []).getD rc.2 0) := by
    unfold flat_stress
    exact map_getD _ c.Stress i [] [] hi
  rw [hLi, hfs_i]
  have hri : (c.ref_Stress.getD i []).length = 6 :=
    hrs _ (getD_mem_of_lt _ i [] (by rw [hlen]; exact hi))
  rcases length_six_destruct _ hri with ⟨v0, v1, v2, v3, v4, v5, hr⟩
  rw [hr]
  unfold voigtSpec voigtRows voigtCols
  interval_cases k <;> rfl

/-- C7 (witness): instantiated at configuration 1 and Voigt component 3
(the yz slot) of the concrete dataset dC1. -/
theorem claim_C7_witness :
    (makeAbw_vb dC1 false none).b.getD (6 * 1 + 3) 0
      = voigtSpec (dC1.Stress.getD 1 []) (dC1.ref_Stress.getD 1 []) 3 :=
  claim_C7 dC1 (by decide) (by decide) 1 3 (by decide) (by decide) false none

/-- applyConv with None is the identity. -/
theorem applyConv_none (A : List (List (List ℚ))) : applyConv none A = A := rfl

/-- Unit conversion does not change the number of rows. -/
theorem length_applyConv (conv : Option ℚ) (A : List (List (List ℚ))) :
    (applyConv conv A).length = A.length := by
  cases conv <;> simp [applyConv, scaleA]

/-- The zero offset column does not change the number of rows. -/
theorem length_zero_type_offset (A : List (List (List ℚ))) :
    (zero_type_offset A).length = A.length := by
  simp [zero_type_offset]

/-- The design matrix of the force subsystem, unfolded. -/
theorem makeAbw_db_A (c : Dataset) (offset : Bool) (conv : Option ℚ) :
    (makeAbw_db c offset conv).A
      = (if offset then zero_type_offset (applyConv conv c.db_atom.flatten.flatten)
         else applyConv conv c.db_atom.flatten.flatten) := rfl

/-- The target vector of the force subsystem, unfolded. -/
theorem makeAbw_db_b (c : Dataset) (offset : Bool) (conv : Option ℚ) :
    (makeAbw_db c offset conv).b
      = (List.zipWith (fun f g => List.zipWith (fun p q => p - q) f g)
        c.Forces.flatten c.ref_Forces.flatten).flatten := rfl

/-- The weight vector of the force subsystem, unfolded. -/
theorem makeAbw_db_w (c : Dataset) (offset : Bool) (conv : Option ℚ) :
    (makeAbw_db c offset conv).w
      = (List.zipWith (fun Fi fwi => (Fi.map (fun row => row.map (fun _ => fwi))).flatten)
        c.Forces c.fweight).flatten := rfl

/-- The design matrix of the virial subsystem, unfolded. -/
theorem makeAbw_vb_A (c : Dataset) (offset : Bool) (conv : Option ℚ) :
    (makeAbw_vb c offset conv).A
      = (if offset then zero_type_offset (applyConv conv
          (List.zipWith (fun row v => row.map (fun tr => tr.map (fun q => q / v)))
            c.vb_sum.flatten ((c.Volume.map (fun v => List.replicate 6 v)).flatten)))
         else applyConv conv
          (List.zipWith (fun row v => row.map (fun tr => tr.map (fun q => q / v)))
            c.vb_sum.flatten ((c.Volume.map (fun v => List.replicate 6 v)).flatten))) := rfl

/-- Flattening the elementwise difference of two lists of length-3 rows
yields 3 rows per paired entry. -/
theorem length_flatten_zipWith_sub :
    ∀ (l1 l2 : List (List ℚ)), (∀ x ∈ l1, x.length = 3) → (∀ x ∈ l2, x.length = 3) →
      ((List.zipWith (fun f g => List.zipWith (fun p q => p - q) f g) l1 l2)).flatten.length
        = 3 * min l1.length l2.length := by
  intro l1
  induction l1 with
  | nil => intro l2 _ _; simp
  | cons x xs ih =>
    intro l2 h1 h2
    cases l2 with
    | nil => simp
    | cons y ys =>
      simp only [List.zipWith_cons_cons, List.flatten_cons, List.length_append]
      rw [List.length_zipWith, h1 x (by simp), h2 y (by simp),
        ih ys (fun a ha => h1 a (by simp [ha])) (fun a ha => h2 a (by simp [ha]))]
      simp only [List.length_cons]
      omega

/-- The broadcast force weight vector has 3 entries per atom row. -/
theorem length_flatten_w :
    ∀ (F : List (List (List ℚ))) (fw : List ℚ), F.length = fw.length →
      (∀ cfg ∈ F, ∀ r ∈ cfg, r.length = 3) →
      ((List.zipWith (fun Fi fwi => (Fi.map (fun row => row.map (fun _ => fwi))).flatten)
        F fw)).flatten.length = 3 * (F.map List.length).sum := by
  intro F
  induction F with
  | nil => intro fw _ _; simp
  | cons Fi Fs ih =>
    intro fw hl h3
    cases fw with
    | nil => simp at hl
    | cons fwi fws =>
      simp only [List.zipWith_cons_cons, List.flatten_cons, List.length_append]
      have hFi : ((Fi.map (fun row => row.map (fun _ => fwi))).flatten).length
          = 3 * Fi.length := by
        rw [List.length_flatten, sum_map_length_const 3, List.length_map]
        intro x hx
        rcases List.mem_map.mp hx with ⟨row, hrow, hxv⟩
        rw [← hxv, List.length_map]
        exact h3 Fi (by simp) row hrow
      rw [hFi, ih fws (by simpa using hl) (fun cfg hc => h3 cfg (by simp [hc]))]
      simp only [List.map_cons, List.sum_cons]
      ring


/-- C8: on a well-formed dataset, the energy design matrix has one row per
configuration, the force system has sum over configurations of
3 * NumAtoms rows in A, b and w alike, and the virial design matrix has 6
rows per configuration, whatever the offset flag and (for the virial)
conversion scalar. -/
theorem claim_C8 (c : Dataset) (offset : Bool)
    (hbs : c.b_sum.length = c.NumAtoms.length)
    (hat : c.AtomTypes.length = c.NumAtoms.length)
    (hda : c.db_atom.map List.length = c.NumAtoms)
    (hda3 : ∀ cfg ∈ c.db_atom, ∀ a ∈ cfg, a.length = 3)
    (hF : c.Forces.map List.length = c.NumAtoms)
    (hrF : c.ref_Forces.map List.length = c.NumAtoms)
    (hF3 : ∀ cfg ∈ c.Forces, ∀ r ∈ cfg, r.length = 3)
    (hrF3 : ∀ cfg ∈ c.ref_Forces, ∀ r ∈ cfg, r.length = 3)
    (hfw : c.fweight.length = c.NumAtoms.length)
    (hvb : c.vb_sum.length = c.NumAtoms.length)
    (hvb6 : ∀ cfg ∈ c.vb_sum, cfg.length = 6)
    (hvol : c.Volume.length = c.NumAtoms.length) :
    (∀ s, makeAbw_b c offset none = some s → s.A.length = c.NumAtoms.length)
    ∧ (makeAbw_db c offset none).A.length = (c.NumAtoms.map (fun n => 3 * n)).sum
    ∧ (makeAbw_db c offset none).b.length = (c.NumAtoms.map (fun n => 3 * n)).sum
    ∧ (makeAbw_db c offset none).w.length = (c.NumAtoms.map (fun n => 3 * n)).sum
    ∧ ∀ conversion, (makeAbw_vb c offset conversion).A.length = 6 * c.NumAtoms.length := by
  have hsum3 : (c.NumAtoms.map (fun n => 3 * n)).sum = 3 * c.NumAtoms.sum :=
    sum_map_three c.NumAtoms
  have hFflat3 : ∀ x ∈ c.Forces.flatten, x.length = 3 := by
    intro x hx
    rcases List.mem_flatten.mp hx with ⟨cfg, hcfg, hxc⟩
    exact hF3 cfg hcfg x hxc
  have hrFflat3 : ∀ x ∈ c.ref_Forces.flatten, x.length = 3 := by
    intro x hx
    rcases List.mem_flatten.mp hx with ⟨cfg, hcfg, hxc⟩
    exact hrF3 cfg hcfg x hxc
  have hFlen : c.Forces.length = c.NumAtoms.length := by
    rw [← List.length_map c.Forces List.length, hF]
  refine ⟨?_, ?_, ?_, ?_, ?_⟩
  · intro s hs
    unfold makeAbw_b at hs
    cases offset with
    | false =>
      simp only [Bool.false_eq_true, if_false, Option.some.injEq] at hs
      rw [← hs]
      show (applyConv none (List.zipWith
        (fun bs n => bs.map (fun row => row.map (fun v => v / (n : ℚ))))
        c.b_sum c.NumAtoms)).length = c.NumAtoms.length
      rw [applyConv_none, List.length_zipWith, hbs, min_self]
    | true =>
      simp only [if_true] at hs
      rcases Option.map_eq_some'.mp hs with ⟨a2, ha2, hsv⟩
      unfold energy_type_offset at ha2
      rcases Option.map_eq_some'.mp ha2 with ⟨fracs, hfr, ha2v⟩
      rw [← hsv]
      show a2.length = c.NumAtoms.length
      rw [← ha2v, List.length_zipWith, mapOption_length hfr, hat, length_applyConv,
        List.length_zipWith, hbs, min_self, min_self]
  · rw [makeAbw_db_A]
    have hbase : c.db_atom.flatten.flatten.length = 3 * c.NumAtoms.sum := by
      rw [List.length_flatten, sum_map_length_const 3, List.length_flatten, hda]
      intro x hx
      rcases List.mem_flatten.mp hx with ⟨cfg, hcfg, hxc⟩
      exact hda3 cfg hcfg x hxc
    cases offset with
    | false =>
      simp only [Bool.false_eq_true, if_false]
      rw [length_applyConv, hbase, hsum3]
    | true =>
      simp only [if_true]
      rw [length_zero_type_offset, length_applyConv, hbase, hsum3]
  · rw [makeAbw_db_b, length_flatten_zipWith_sub _ _ hFflat3 hrFflat3,
      List.length_flatten, List.length_flatten, hF, hrF, min_self, hsum3]
  · rw [makeAbw_db_w, length_flatten_w c.Forces c.fweight (by rw [hFlen, hfw])
      hF3, hF, hsum3]
  · intro conversion
    rw [makeAbw_vb_A]
    have hv1 : c.vb_sum.flatten.length = 6 * c.NumAtoms.length := by
      rw [List.length_flatten, sum_map_length_const 6 _ hvb6, hvb]
    have hv2 : ((c.Volume.map (fun v => List.replicate 6 v)).flatten).length
        = 6 * c.NumAtoms.length := by
      rw [List.length_flatten, sum_map_length_const 6, List.length_map, hvol]
      intro x hx
      rcases List.mem_map.mp hx with ⟨v, _, hxv⟩
      rw [← hxv, List.length_replicate]
    cases offset with
    | false =>
      simp only [Bool.false_eq_true, if_false]
      rw [length_applyConv, List.length_zipWith, hv1, hv2, min_self]
    | true =>
      simp only [if_true]
      rw [length_zero_type_offset, length_applyConv, List.length_zipWith, hv1, hv2,
        min_self]

/-- C8 (witness): on the concrete dataset dC1 (two one-atom configurations)
the force system has 6 rows and the virial design matrix has 12. -/
theorem claim_C8_witness :
    (makeAbw_db dC1 true none).A.length = 6
    ∧ (makeAbw_vb dC1 true (some nktv2p)).A.length = 12 := by
  have h := claim_C8 dC1 true (by decide) (by decide) (by decide) (by decide)
    (by decide) (by decide) (by decide) (by decide) (by decide) (by decide)
    (by decide) (by decide)
  exact ⟨h.2.1.trans (by decide), (h.2.2.2.2 (some nktv2p)).trans (by decide)⟩

/-- Projecting out the prepended offset column of each type slice recovers
the fraction vector. -/
theorem map_getD_zero_zipWith_cons :
    ∀ (fr : List ℚ) (Ai : List (List ℚ)), fr.length = Ai.length →
      ((List.zipWith (fun ft row => ft :: row) fr Ai).map (fun r => r.getD 0 0)) = fr := by
  intro fr
  induction fr with
  | nil => intro Ai _; rfl
  | cons ft fts ih =>
    intro Ai hl
    cases Ai with
    | nil => simp at hl
    | cons row rows =>
      simp only [List.zipWith_cons_cons, List.map_cons, List.getD_cons_zero]
      rw [ih rows (by simpa using hl)]

/-- Summing the per-type counts of valid ids over all types counts every
atom. -/
theorem counts_total_types (T : ℕ) (l : List ℤ)
    (hval : ∀ x ∈ l, 1 ≤ x ∧ x ≤ (T : ℤ)) :
    ((List.range T).map (fun (t : ℕ) =>
      ((l.filter (fun x => x = (t : ℤ) + 1)).length : ℚ))).sum = (l.length : ℚ) := by
  have hconv : ((List.range T).map (fun (t : ℕ) =>
      (((l.map (fun x => npResolve T (x - 1))).filter (fun i => i = t)).length : ℚ)))
      = ((List.range T).map (fun (t : ℕ) =>
      ((l.filter (fun x => x = (t : ℤ) + 1)).length : ℚ))) := by
    apply List.map_congr_left
    intro t htmem
    rw [filter_count_valid T t (List.mem_range.mp htmem) l hval]
  have hlt : ∀ i ∈ l.map (fun x => npResolve T (x - 1)), i < T := by
    intro i hi
    rcases List.mem_map.mp hi with ⟨x, hx, hrx⟩
    have h1 := (hval x hx).1
    have h2 := (hval x hx).2
    rw [← hrx, npResolve_of_valid T x h1]
    omega
  rw [← hconv, counts_total T _ hlt, List.length_map]

/-- C9: on configurations of valid 1-indexed type ids with at least one
atom, the offset column that energy_type_offset prepends holds, for each
configuration row and each type t, the fraction of atoms of type t + 1,
and the offset entries of a row sum to 1 across the type axis. -/
theorem claim_C9 (A : List (List (List ℚ))) (ats : List (List ℤ)) (T : ℕ)
    (hT : T = (A.headD []).length)
    (hlen : ats.length = A.length)
    (hA : ∀ Ai ∈ A, Ai.length = T)
    (hval : ∀ l ∈ ats, ∀ x ∈ l, 1 ≤ x ∧ x ≤ (T : ℤ))
    (hne : ∀ l ∈ ats, l ≠ []) :
    ∃ A2, energy_type_offset A ats = some A2 ∧
      ∀ i, i < A2.length →
        (∀ t, t < T → ((A2.getD i []).getD t []).getD 0 0
          = (((ats.getD i []).filter (fun x => x = (t : ℤ) + 1)).length : ℚ)
            / ((ats.getD i []).length : ℚ))
        ∧ ((A2.getD i []).map (fun r => r.getD 0 0)).sum = 1 := by
  subst hT
  set T := (A.headD []).length with hTdef
  have hfr : mapOption (onehot_fraction T) ats
      = some (ats.map (fun l => (List.range T).map (fun (t : ℕ) =>
        ((l.filter (fun x => x = (t : ℤ) + 1)).length : ℚ) / (l.length : ℚ)))) :=
    mapOption_eq_some _ ats (fun l hl => onehot_fraction_valid T l (hval l hl))
  refine ⟨List.zipWith (fun frac Ai => List.zipWith (fun ft row => ft :: row) frac Ai)
    (ats.map (fun l => (List.range T).map (fun (t : ℕ) =>
      ((l.filter (fun x => x = (t : ℤ) + 1)).length : ℚ) / (l.length : ℚ)))) A, ?_, ?_⟩
  · simp only [energy_type_offset]
    rw [hfr]
    rfl
  · intro i hi
    rw [List.length_zipWith, List.length_map] at hi
    have hiats : i < ats.length := lt_of_lt_of_le hi (by omega)
    have hiA : i < A.length := by omega
    have hrow : (List.zipWith (fun frac Ai => List.zipWith (fun ft row => ft :: row) frac Ai)
        (ats.map (fun l => (List.range T).map (fun (t : ℕ) =>
          ((l.filter (fun x => x = (t : ℤ) + 1)).length : ℚ) / (l.length : ℚ)))) A).getD i []
        = List.zipWith (fun ft row => ft :: row)
          ((List.range T).map (fun (t : ℕ) =>
            (((ats.getD i []).filter (fun x => x = (t : ℤ) + 1)).length : ℚ)
              / ((ats.getD i []).length : ℚ))) (A.getD i []) := by
      rw [zipWith_getD _ [] [] [] _ _ i (by rw [List.length_map]; exact hiats) hiA,
        map_getD _ ats i [] []]
      exact hiats
    have hfrlen : ((List.range T).map (fun (t : ℕ) =>
        (((ats.getD i []).filter (fun x => x = (t : ℤ) + 1)).length : ℚ)
          / ((ats.getD i []).length : ℚ))).length = T := by
      rw [List.length_map, List.length_range]
    have hAiT : (A.getD i []).length = T := hA _ (getD_mem_of_lt A i [] hiA)
    have hlmem : ats.getD i [] ∈ ats := getD_mem_of_lt ats i [] hiats
    constructor
    · intro t ht
      rw [hrow, zipWith_getD _ 0 [] [] _ _ t (by rw [hfrlen]; exact ht)
        (by rw [hAiT]; exact ht), List.getD_cons_zero,
        map_getD _ (List.range T) t 0 0 (by rw [List.length_range]; exact ht),
        range_getD T t ht]
    · rw [hrow, map_getD_zero_zipWith_cons _ _ (by rw [hfrlen, hAiT])]
      have hlsum := counts_total_types T (ats.getD i []) (hval _ hlmem)
      have hdistrib : ((List.range T).map (fun (t : ℕ) =>
          (((ats.getD i []).filter (fun x => x = (t : ℤ) + 1)).length : ℚ)
            / ((ats.getD i []).length : ℚ))).sum
          = ((List.range T).map (fun (t : ℕ) =>
          (((ats.getD i []).filter (fun x => x = (t : ℤ) + 1)).length : ℚ))).sum
            / ((ats.getD i []).length : ℚ) := by
        rw [sum_map_range, sum_map_range, Finset.sum_div]
      rw [hdistrib, hlsum]
      have hlne : (ats.getD i []) ≠ [] := hne _ hlmem
      have : ((ats.getD i []).length : ℚ) ≠ 0 :=
        Nat.cast_ne_zero.mpr (fun h => hlne (List.length_eq_zero.mp h))
      exact div_self this

/-- C9 (witness): a single configuration of one atom of type 1 with one
type: the offset entry is 1/1 and the offset column sums to 1. -/
theorem claim_C9_witness :
    ∃ A2, energy_type_offset [[[5]]] [[1]] = some A2 ∧
      ∀ i, i < A2.length →
        (∀ t, t < 1 → ((A2.getD i []).getD t []).getD 0 0
          = (((([[1]] : List (List ℤ)).getD i []).filter (fun x => x = (t : ℤ) + 1)).length : ℚ)
            / ((([[1]] : List (List ℤ)).getD i []).length : ℚ))
        ∧ ((A2.getD i []).map (fun r => r.getD 0 0)).sum = 1 :=
  claim_C9 [[[5]]] [[1]] 1 rfl rfl (by decide) (by decide) (by decide)

/-- C10: with type ids that are each 0 or valid, energy_type_offset does
not fail: the raw index -1 of a type-0 atom resolves to the last identity
row, so the atom is silently counted under type n_types, and the count at
the last type equals the ids equal to n_types together with the ids equal
to 0. -/
theorem claim_C10 (T : ℕ) (hT : 0 < T) (A : List (List (List ℚ)))
    (ats : List (List ℤ)) (hTA : (A.headD []).length = T)
    (hval : ∀ l ∈ ats, ∀ x ∈ l, x = 0 ∨ (1 ≤ x ∧ x ≤ (T : ℤ))) :
    (energy_type_offset A ats).isSome = true
    ∧ npIndex T (0 - 1) = some (T - 1)
    ∧ ∀ l ∈ ats, ∃ cts, onehot_atoms T l = some cts ∧
        cts.getD (T - 1) 0 = ((l.filter (fun x => x = (T : ℤ) ∨ x = 0)).length : ℚ) := by
  have hresolve : ∀ l ∈ ats, ∀ x ∈ l, npIndex T (x - 1) = some (npResolve T (x - 1)) :=
    fun l hl x hx => npIndex_zero_or_valid T x hT (hval l hl x hx)
  refine ⟨?_, npIndex_zero T hT, ?_⟩
  · simp only [energy_type_offset, hTA]
    have hsome : ∀ l ∈ ats, onehot_fraction T l
        = some (((List.range T).map (fun (t : ℕ) =>
          (((l.map (fun x => npResolve T (x - 1))).filter (fun i => i = t)).length : ℚ))).map
          (fun ct => ct / ((List.range T).map (fun (t : ℕ) =>
          (((l.map (fun x => npResolve T (x - 1))).filter (fun i => i = t)).length : ℚ))).sum)) := by
      intro l hl
      unfold onehot_fraction
      rw [onehot_atoms_counts T l (hresolve l hl)]
      rfl
    rw [mapOption_eq_some _ ats hsome]
    rfl
  · intro l hl
    refine ⟨_, onehot_atoms_counts T l (hresolve l hl), ?_⟩
    rw [map_getD _ (List.range T) (T - 1) 0 0 (by rw [List.length_range]; omega),
      range_getD T (T - 1) (by omega), filter_count_last T hT l (hval l hl)]

/-- C10 (witness): two types, one configuration holding an atom of type 0
and an atom of type 1: no failure occurs, -1 resolves to row 1, and the
last-type count (1) is the number of type-2 atoms plus type-0 atoms. -/
theorem claim_C10_witness :
    (energy_type_offset [[[3], [4]]] [[0, 1]]).isSome = true
    ∧ npIndex 2 (0 - 1) = some (2 - 1)
    ∧ ∀ l ∈ ([[0, 1]] : List (List ℤ)), ∃ cts, onehot_atoms 2 l = some cts ∧
        cts.getD (2 - 1) 0 = ((l.filter (fun x => x = (2 : ℤ) ∨ x = 0)).length : ℚ) :=
  claim_C10 2 (by decide) [[[3], [4]]] [[0, 1]] rfl (by decide)
